import Mathlib

/-!
Verification of the MSP serial-protocol codec in `src/src/communication/msp.ts`
(class `Msp`): the CRC8-DVB-S2 checksum, the V1/V2 frame encoders, the
outgoing-format selection in `send`, and the incremental byte-stream parser
`processResponse`.

Bytes are modelled as `Nat` values; every store into a JS `Uint8Array` is
modelled with an explicit `% 256`, matching the truncation JS performs on
assignment.  Reading `data[i]` out of range yields `undefined` in JS, which
coerces to `0` under the bitwise operators used here, so out-of-range reads
are modelled by `List.getD _ _ 0`.
-/

namespace Msp

/-! ## Checksum engine: `crc8DvbS2Data` (msp.ts lines 71-86) -/

/-- One iteration of the inner 8-round loop of `crc8DvbS2Data`:
    `if (crc & 0x80) crc = ((crc << 1) & 0xFF) ^ 0xD5; else crc = (crc << 1) & 0xFF`. -/
def crc8Round (crc : Nat) : Nat :=
  if crc &&& 0x80 ≠ 0 then ((crc <<< 1) &&& 0xFF) ^^^ 0xD5 else (crc <<< 1) &&& 0xFF

/-- The inner `for (let i = 0; i < 8; i += 1)` loop of `crc8DvbS2Data`, run `n` times. -/
def crc8Rounds : Nat → Nat → Nat
  | 0, crc => crc
  | n + 1, crc => crc8Rounds n (crc8Round crc)

/-- One iteration of the outer loop of `crc8DvbS2Data`: `crc ^= ch` followed by
    the eight inner rounds. -/
def crc8Byte (crc ch : Nat) : Nat := crc8Rounds 8 (crc ^^^ ch)

/-- `crc8DvbS2Data(data, start, end)`: the outer loop
    `for (let i = start; i < end; i += 1)` processes `data[i]` for each index in
    the half-open range `[start, stop)`, starting from `crc = 0`. -/
def crc8DvbS2Data (data : List Nat) (start stop : Nat) : Nat :=
  ((List.range (stop - start)).map (fun k => data.getD (start + k) 0)).foldl crc8Byte 0

/-- Reference round written from the words of the spec (§4.2): "repeat 8 times:
    if the high bit of crc is set, crc = ((crc<<1) & 0xFF) ^ 0xD5, else
    crc = (crc<<1) & 0xFF", with the high-bit test and the shift-and-mask
    expressed arithmetically. -/
def crcSpecRound (crc : Nat) : Nat :=
  if Nat.testBit crc 7 then (crc * 2) % 256 ^^^ 0xD5 else (crc * 2) % 256

/-- Eight reference rounds (spec §4.2). -/
def crcSpecRounds : Nat → Nat → Nat
  | 0, crc => crc
  | n + 1, crc => crcSpecRounds n (crcSpecRound crc)

/-- Reference CRC8-DVB-S2 over a byte sequence, written from the words of the
    spec (§4.2): "initial value 0 … For each byte: crc ^= byte; repeat 8 times …",
    with no input/output reflection. -/
def crc8Spec (bytes : List Nat) : Nat :=
  bytes.foldl (fun crc b => crcSpecRounds 8 (crc ^^^ b)) 0

/-! ## Frame encoders (msp.ts lines 95-153) -/

/-- `encodeV1(command, data)` (msp.ts lines 95-121): header `$ M <`, one length
    byte, one command byte, the payload, and an XOR checksum seeded with
    `bufView[3] ^ bufView[4]`.  Each `bufView[_] = e` store truncates `e % 256`. -/
def encodeV1 (command : Nat) (data : List Nat) : List Nat :=
  let b3 := data.length % 256
  let b4 := command % 256
  if data.length > 0 then
    let payloadBytes := data.map (fun b => b % 256)
    let checksum := payloadBytes.foldl (fun c b => c ^^^ b) (b3 ^^^ b4)
    [36, 77, 60, b3, b4] ++ payloadBytes ++ [checksum % 256]
  else
    [36, 77, 60, b3, b4, (b3 ^^^ b4) % 256]

/-- `encodeV2(command, data)` (msp.ts lines 130-153): header `$ X <`, flag byte 0,
    little-endian command and length, the payload, and a final
    `crc8DvbS2Data(bufView, 3, size - 1)` byte.  The buffer passed to the CRC has
    indices `0 .. size-2` written (index `size-1` is still 0 and outside the
    CRC range), so it is modelled by the list of those bytes. -/
def encodeV2 (command : Nat) (data : List Nat) : List Nat :=
  let dataLength := data.length
  let size := 9 + dataLength
  let body := [36, 88, 60, 0, command % 256, (command / 256) % 256,
               dataLength % 256, (dataLength / 256) % 256] ++
              data.map (fun b => b % 256)
  body ++ [crc8DvbS2Data body 3 (size - 1)]

/-- The buffer built by `send(command, data)` (msp.ts lines 155-173):
    `command <= 254` uses `encodeV1`, otherwise `encodeV2`; a missing payload
    defaults to the empty `Uint8Array`. -/
def send (command : Nat) (data : Option (List Nat)) : List Nat :=
  if command ≤ 254 then encodeV1 command (data.getD [])
  else encodeV2 command (data.getD [])

/-! ## Incremental parser `processResponse` (msp.ts lines 194-288) -/

/-- A decoded frame handed to `CommandQueue.addCommand` (msp.ts lines 270-276):
    the command code and the payload bytes of the `DataView`. -/
structure MspFrame where
  commandName : Nat
  data : List Nat
deriving DecidableEq, Repr

/-- The parser's per-instance mutable fields (msp.ts lines 55 and 194-200).
    `messageBuffer` models the contents of the `Uint8Array` view of the
    `ArrayBuffer`; `commandCount` is the in-flight diagnostic counter. -/
structure MspState where
  state : Nat
  messageBuffer : List Nat
  messageChecksum : Nat
  messageLengthExpected : Nat
  messageLengthReceived : Nat
  command : Option Nat
  commandCount : Int
deriving DecidableEq, Repr

/-- Field values of a freshly constructed `Msp` instance. -/
def initState : MspState :=
  { state := 0, messageBuffer := [], messageChecksum := 0,
    messageLengthExpected := 0, messageLengthReceived := 0,
    command := none, commandCount := 0 }

/-- The body of the `for(let char of data)` loop of `processResponse`
    (msp.ts lines 215-286): one byte drives the `switch(this.state)` machine.
    Returns the updated state and the frames emitted (zero or one). -/
def processByte (s : MspState) (char : Nat) : MspState × List MspFrame :=
  match s.state with
  | 0 =>
      if char = 36 then ({ s with state := s.state + 1 }, []) else (s, [])
  | 1 =>
      if char = 77 then ({ s with state := s.state + 1 }, [])
      else ({ s with state := 0 }, [])
  | 2 =>
      if char = 60 ∨ char = 62 then ({ s with state := s.state + 1 }, [])
      else ({ s with state := 0 }, [])
  | 3 =>
      ({ s with messageLengthExpected := char,
                messageChecksum := char,
                messageBuffer := List.replicate char 0,
                state := s.state + 1 }, [])
  | 4 =>
      ({ s with command := some char,
                messageChecksum := s.messageChecksum ^^^ char,
                state := if s.messageLengthExpected > 0
                         then s.state + 1 else s.state + 2 }, [])
  | 5 =>
      let s' := { s with
        messageBuffer := s.messageBuffer.set s.messageLengthReceived (char % 256),
        messageChecksum := s.messageChecksum ^^^ char,
        messageLengthReceived := s.messageLengthReceived + 1 }
      if s'.messageLengthReceived ≥ s'.messageLengthExpected
      then ({ s' with state := s.state + 1 }, [])
      else (s', [])
  | 6 =>
      let out := if s.messageChecksum = char
        then [{ commandName := s.command.getD 0, data := s.messageBuffer }]
        else []
      let cnt := if s.messageChecksum = char
        then s.commandCount - 1 else s.commandCount
      ({ state := 0, messageBuffer := [], messageChecksum := 0,
         messageLengthExpected := 0, messageLengthReceived := 0,
         command := none, commandCount := cnt }, out)
  | _ => (s, [])

/-- `processResponse(data)` (msp.ts lines 213-288): run `processByte` over the
    chunk, threading the state and concatenating the emitted frames. -/
def processResponse : MspState → List Nat → MspState × List MspFrame
  | s, [] => (s, [])
  | s, char :: rest =>
      let r := processByte s char
      let rr := processResponse r.1 rest
      (rr.1, r.2 ++ rr.2)

/-- Repeated calls of `processResponse`, one chunk at a time, with the instance
    state persisting between calls. -/
def processChunks : MspState → List (List Nat) → MspState × List MspFrame
  | s, [] => (s, [])
  | s, c :: cs =>
      let r := processResponse s c
      let rr := processChunks r.1 cs
      (rr.1, r.2 ++ rr.2)

/-! ## Helper lemmas -/

set_option maxRecDepth 4000 in
lemma crc8Rounds_eight_eq : ∀ c < 256, crc8Rounds 8 c = crcSpecRounds 8 c := by decide

set_option maxRecDepth 4000 in
lemma crc8Rounds_eight_lt : ∀ c < 256, crc8Rounds 8 c < 256 := by decide

lemma two_pow_eight : (256 : Nat) = 2 ^ 8 := by norm_num

lemma xor_lt_256 {a b : Nat} (ha : a < 256) (hb : b < 256) : a ^^^ b < 256 := by
  rw [two_pow_eight] at ha hb ⊢
  exact Nat.xor_lt_two_pow ha hb

lemma crc8Byte_eq {crc ch : Nat} (hc : crc < 256) (hch : ch < 256) :
    crc8Byte crc ch = crcSpecRounds 8 (crc ^^^ ch) :=
  crc8Rounds_eight_eq _ (xor_lt_256 hc hch)

lemma crc8Byte_lt {crc ch : Nat} (hc : crc < 256) (hch : ch < 256) :
    crc8Byte crc ch < 256 :=
  crc8Rounds_eight_lt _ (xor_lt_256 hc hch)

lemma foldl_crc8Byte_eq :
    ∀ (l : List Nat) (crc : Nat), crc < 256 → (∀ b ∈ l, b < 256) →
      l.foldl crc8Byte crc = l.foldl (fun c b => crcSpecRounds 8 (c ^^^ b)) crc := by
  intro l
  induction l with
  | nil => intro crc _ _; rfl
  | cons b t ih =>
      intro crc hc hl
      have hb : b < 256 := hl b (by simp)
      have ht : ∀ x ∈ t, x < 256 := fun x hx => hl x (by simp [hx])
      simp only [List.foldl_cons]
      rw [← crc8Byte_eq hc hb]
      exact ih _ (crc8Byte_lt hc hb) ht

lemma range_map_getD_eq (data : List Nat) (s e : Nat) (he : e ≤ data.length) :
    (List.range (e - s)).map (fun k => data.getD (s + k) 0) =
      (data.drop s).take (e - s) := by
  apply List.ext_getElem
  · simp only [List.length_map, List.length_range, List.length_take, List.length_drop]
    omega
  · intro n h1 h2
    have hn : n < e - s := by simpa using h1
    have hsn : s + n < data.length := by omega
    simp only [List.getElem_map, List.getElem_range, List.getElem_take,
      List.getElem_drop]
    exact List.getD_eq_getElem data 0 hsn

lemma crc_slice (data : List Nat) (s e : Nat)
    (hdata : ∀ b ∈ data, b < 256) (he : e ≤ data.length) :
    crc8DvbS2Data data s e = crc8Spec ((data.drop s).take (e - s)) := by
  unfold crc8DvbS2Data crc8Spec
  rw [range_map_getD_eq data s e he]
  refine foldl_crc8Byte_eq _ 0 (by norm_num) ?_
  intro b hb
  exact hdata b (List.drop_subset s data (List.take_subset _ _ hb))

lemma xorFoldl_lt :
    ∀ (l : List Nat) (a : Nat), a < 256 → (∀ b ∈ l, b < 256) →
      l.foldl (fun c b => c ^^^ b) a < 256 := by
  intro l
  induction l with
  | nil => intro a ha _; simpa using ha
  | cons b t ih =>
      intro a ha hl
      simp only [List.foldl_cons]
      exact ih _ (xor_lt_256 ha (hl b (by simp))) (fun x hx => hl x (by simp [hx]))

lemma map_mod_eq_self {l : List Nat} (hl : ∀ b ∈ l, b < 256) :
    l.map (fun b => b % 256) = l := by
  have h : l.map (fun b => b % 256) = l.map id :=
    List.map_congr_left fun b hb => Nat.mod_eq_of_lt (hl b hb)
  simpa using h

lemma encodeV1_eq (cmd : Nat) (data : List Nat) (hcmd : cmd < 256)
    (hlen : data.length ≤ 255) (hdata : ∀ b ∈ data, b < 256) :
    encodeV1 cmd data =
      [36, 77, 60, data.length, cmd] ++ data ++
        [(data.length :: cmd :: data).foldl (fun c b => c ^^^ b) 0] := by
  have hlmod : data.length % 256 = data.length := Nat.mod_eq_of_lt (by omega)
  have hcmod : cmd % 256 = cmd := Nat.mod_eq_of_lt hcmd
  have hxor : data.length ^^^ cmd < 256 := xor_lt_256 (by omega) hcmd
  unfold encodeV1
  simp only [hlmod, hcmod, map_mod_eq_self hdata]
  by_cases h : data.length > 0
  · rw [if_pos h]
    have hcs : data.foldl (fun c b => c ^^^ b) (data.length ^^^ cmd) < 256 :=
      xorFoldl_lt data _ hxor hdata
    rw [Nat.mod_eq_of_lt hcs]
    simp [List.foldl_cons, Nat.zero_xor]
  · rw [if_neg h]
    have hd : data = [] := List.length_eq_zero.mp (by omega)
    subst hd
    simp [Nat.zero_xor, Nat.mod_eq_of_lt hcmd]

lemma encodeV1_getD_one (cmd : Nat) (data : List Nat) :
    (encodeV1 cmd data).getD 1 0 = 77 := by
  unfold encodeV1
  split <;> rfl

lemma encodeV2_getD_one (cmd : Nat) (data : List Nat) :
    (encodeV2 cmd data).getD 1 0 = 88 := rfl

/-! ## Claim theorems: checksum engine and encoders -/

/-- C3: `crc8DvbS2Data` agrees with the reference CRC8-DVB-S2 definition
    (polynomial 0xD5, MSB-first, initial value 0, no reflection) on every byte
    sequence and every half-open index range of it; the empty range checksums
    to 0; and the function is order-sensitive. -/
theorem crc8_dvbs2_correct :
    (∀ (data : List Nat) (s e : Nat), (∀ b ∈ data, b < 256) → e ≤ data.length →
        crc8DvbS2Data data s e = crc8Spec ((data.drop s).take (e - s))) ∧
    (∀ (data : List Nat) (s e : Nat), e ≤ s → crc8DvbS2Data data s e = 0) ∧
    (∃ a b : Nat, a < 256 ∧ b < 256 ∧
        crc8DvbS2Data [a, b] 0 2 ≠ crc8DvbS2Data [b, a] 0 2) := by
  refine ⟨crc_slice, ?_, ⟨0, 1, by decide, by decide, by decide⟩⟩
  intro data s e he
  unfold crc8DvbS2Data
  rw [Nat.sub_eq_zero_of_le he]
  rfl

/-- Witness for C3: the range `[1, 3)` of `[1, 2, 3]`. -/
theorem crc8_dvbs2_correct_witness :
    crc8DvbS2Data [1, 2, 3] 1 3 = crc8Spec (([1, 2, 3].drop 1).take 2) :=
  crc8_dvbs2_correct.1 [1, 2, 3] 1 3 (by decide) (by decide)

set_option maxRecDepth 10000 in
/-- C5 (code bug): `encodeV1` does not reject an oversized payload.  On a
    payload of 256 bytes it silently truncates the length field
    (`bufView[3] = data.length` stores `256 % 256 = 0`) and returns the
    262-byte buffer with no error. -/
theorem encodeV1_oversize_truncates :
    (encodeV1 1 (List.replicate 256 0)).getD 3 999 = 0 ∧
    (encodeV1 1 (List.replicate 256 0)).length = 262 := by decide

/-- C6: for command codes 0..254 and payloads of length 0..255, `encodeV1`
    produces `$ M <`, the length byte, the command byte, the payload, and the
    XOR of length, command and payload bytes; in particular
    `encodeV1 1 []` is `[0x24, 0x4D, 0x3C, 0x00, 0x01, 0x01]`. -/
theorem encodeV1_correct :
    (∀ (cmd : Nat) (data : List Nat), cmd ≤ 254 → data.length ≤ 255 →
        (∀ b ∈ data, b < 256) →
        encodeV1 cmd data =
          [36, 77, 60, data.length, cmd] ++ data ++
            [(data.length :: cmd :: data).foldl (fun c b => c ^^^ b) 0]) ∧
    encodeV1 1 [] = [0x24, 0x4D, 0x3C, 0x00, 0x01, 0x01] :=
  ⟨fun cmd data h1 h2 h3 => encodeV1_eq cmd data (by omega) h2 h3, by decide⟩

/-- Witness for C6: command 2 with payload `[7, 9]`. -/
theorem encodeV1_correct_witness :
    encodeV1 2 [7, 9] =
      [36, 77, 60, 2, 2] ++ [7, 9] ++
        [(2 :: 2 :: [7, 9]).foldl (fun c b => c ^^^ b) 0] :=
  encodeV1_correct.1 2 [7, 9] (by decide) (by decide) (by decide)

/-- C7: `send` selects the V1 encoder exactly for command codes at most 254 and
    the V2 encoder exactly for command codes above 254; observably, the second
    byte of the built buffer is the marker `M` precisely in the V1 case. -/
theorem send_format_selection :
    ∀ (cmd : Nat) (data : Option (List Nat)),
      (cmd ≤ 254 → send cmd data = encodeV1 cmd (data.getD [])) ∧
      (254 < cmd → send cmd data = encodeV2 cmd (data.getD [])) ∧
      ((send cmd data).getD 1 0 = 77 ↔ cmd ≤ 254) := by
  intro cmd data
  by_cases h : cmd ≤ 254
  · have hs : send cmd data = encodeV1 cmd (data.getD []) := by simp [send, h]
    refine ⟨fun _ => hs, fun hh => absurd h (by omega), ?_⟩
    rw [hs, encodeV1_getD_one]
    simp [h]
  · have hs : send cmd data = encodeV2 cmd (data.getD []) := by simp [send, h]
    refine ⟨fun hh => absurd hh h, fun _ => hs, ?_⟩
    rw [hs, encodeV2_getD_one]
    simp [h]

/-- Witness for C7: commands 1 (V1) and 255 (V2). -/
theorem send_format_selection_witness :
    send 1 none = encodeV1 1 [] ∧ send 255 none = encodeV2 255 [] :=
  ⟨(send_format_selection 1 none).1 (by decide),
   (send_format_selection 255 none).2.1 (by decide)⟩


/-! ## Parser lemmas -/

lemma processResponse_append (a b : List Nat) (s : MspState) :
    processResponse s (a ++ b) =
      ((processResponse (processResponse s a).1 b).1,
       (processResponse s a).2 ++ (processResponse (processResponse s a).1 b).2) := by
  induction a generalizing s with
  | nil => simp [processResponse]
  | cons c t ih => simp [processResponse, ih, List.append_assoc]

/-! ## Claim theorems: parser -/

/-- C2: feeding an inbound byte stream to `processResponse` in arbitrary
    consecutive chunks, with the parser state persisting between calls, emits
    exactly the same frames (and reaches the same state) as feeding the whole
    stream as one contiguous chunk. -/
theorem chunk_split_invariant :
    ∀ (s : MspState) (chunks : List (List Nat)),
      processChunks s chunks = processResponse s chunks.flatten := by
  intro s chunks
  induction chunks generalizing s with
  | nil => simp [processChunks, processResponse]
  | cons c cs ih =>
      simp only [processChunks, List.flatten_cons, processResponse_append, ih]

/-- C8: in the CHECKSUM stage (state 6) a byte equal to the accumulated
    checksum emits the completed frame and decrements the in-flight counter,
    a differing byte emits nothing and leaves the counter unchanged, and in
    both cases all per-frame scratch state is cleared and the parser returns
    to WAIT_DOLLAR; consequently a corrupted frame is dropped while a
    subsequent valid frame in the same stream still parses. -/
theorem checksum_stage_behavior :
    (∀ (s : MspState) (char : Nat), s.state = 6 →
      processByte s char =
        ({ state := 0, messageBuffer := [], messageChecksum := 0,
           messageLengthExpected := 0, messageLengthReceived := 0,
           command := none,
           commandCount := if s.messageChecksum = char
                           then s.commandCount - 1 else s.commandCount },
         if s.messageChecksum = char
         then [{ commandName := s.command.getD 0, data := s.messageBuffer }]
         else [])) ∧
    (processResponse initState
        ([36, 77, 62, 1, 1, 99, 0] ++ [36, 77, 62, 0, 1, 1])).2 =
      [{ commandName := 1, data := [] }] := by
  constructor
  · intro s char h
    obtain ⟨st, buf, chk, exp, rcv, cmd, cnt⟩ := s
    simp only [MspState.state] at h
    subst h
    simp only [processByte]
  · decide

/-- Witness for C8: a state sitting in the CHECKSUM stage with a matching
    checksum byte. -/
theorem checksum_stage_behavior_witness :
    processByte
        { state := 6, messageBuffer := [5], messageChecksum := 9,
          messageLengthExpected := 1, messageLengthReceived := 1,
          command := some 4, commandCount := 2 } 9 =
      ({ state := 0, messageBuffer := [], messageChecksum := 0,
         messageLengthExpected := 0, messageLengthReceived := 0,
         command := none, commandCount := 1 },
       [{ commandName := 4, data := [5] }]) := by
  have h := checksum_stage_behavior.1
    { state := 6, messageBuffer := [5], messageChecksum := 9,
      messageLengthExpected := 1, messageLengthReceived := 1,
      command := some 4, commandCount := 2 } 9 rfl
  simpa using h

/-- C10: in the WAIT_MARKER stage (state 1) any byte other than `M` — a second
    `$` included — resets the parser to WAIT_DOLLAR and is consumed; in
    particular the stream `$ $ M > 0x00 0x01 0x01` emits no frame. -/
theorem wait_marker_dollar_reset :
    (∀ (s : MspState) (char : Nat), s.state = 1 → char ≠ 77 →
        processByte s char = ({ s with state := 0 }, [])) ∧
    (processResponse initState [36, 36, 77, 62, 0, 1, 1]).2 = [] := by
  constructor
  · intro s char h hc
    obtain ⟨st, buf, chk, exp, rcv, cmd, cnt⟩ := s
    simp only [MspState.state] at h
    subst h
    simp [processByte, hc]
  · decide

/-- Witness for C10: a `$` arriving in the WAIT_MARKER stage. -/
theorem wait_marker_dollar_reset_witness :
    processByte
        { state := 1, messageBuffer := [], messageChecksum := 0,
          messageLengthExpected := 0, messageLengthReceived := 0,
          command := none, commandCount := 0 } 36 =
      ({ state := 0, messageBuffer := [], messageChecksum := 0,
         messageLengthExpected := 0, messageLengthReceived := 0,
         command := none, commandCount := 0 }, []) := by
  have h := wait_marker_dollar_reset.1
    { state := 1, messageBuffer := [], messageChecksum := 0,
      messageLengthExpected := 0, messageLengthReceived := 0,
      command := none, commandCount := 0 } 36 rfl (by decide)
  simpa using h


/-- C4: for command codes 255..65535 and payloads of length 0..65535, `encodeV2`
    produces `$ X <`, flag byte 0, the command and the payload length as
    little-endian byte pairs, the payload, and a final byte equal to
    `crc8DvbS2Data` computed over the range from the flag byte through the last
    payload byte. -/
theorem encodeV2_correct :
    ∀ (cmd : Nat) (data : List Nat), 255 ≤ cmd → cmd ≤ 65535 →
      data.length ≤ 65535 → (∀ b ∈ data, b < 256) →
      encodeV2 cmd data =
        [36, 88, 60, 0, cmd % 256, cmd / 256,
         data.length % 256, data.length / 256] ++ data ++
          [crc8DvbS2Data
             ([0, cmd % 256, cmd / 256, data.length % 256, data.length / 256]
               ++ data)
             0 (5 + data.length)] := by
  intro cmd data h255 h65535 hlen hdata
  have hc2 : cmd / 256 < 256 := Nat.div_lt_of_lt_mul (by omega)
  have hn2 : data.length / 256 < 256 := Nat.div_lt_of_lt_mul (by omega)
  have hcmod : (cmd / 256) % 256 = cmd / 256 := Nat.mod_eq_of_lt hc2
  have hnmod : (data.length / 256) % 256 = data.length / 256 := Nat.mod_eq_of_lt hn2
  have hfb : ∀ b ∈ ([0, cmd % 256, cmd / 256, data.length % 256,
      data.length / 256] ++ data), b < 256 := by
    intro b hb
    simp only [List.cons_append, List.nil_append, List.mem_cons] at hb
    rcases hb with rfl | rfl | rfl | rfl | rfl | hb
    · omega
    · exact Nat.mod_lt _ (by omega)
    · exact hc2
    · exact Nat.mod_lt _ (by omega)
    · exact hn2
    · exact hdata b hb
  have hbody : ∀ b ∈ ([36, 88, 60, 0, cmd % 256, cmd / 256,
      data.length % 256, data.length / 256] ++ data), b < 256 := by
    intro b hb
    simp only [List.cons_append, List.nil_append, List.mem_cons] at hb
    rcases hb with rfl | rfl | rfl | hb
    · omega
    · omega
    · omega
    · refine hfb b ?_
      simp only [List.cons_append, List.nil_append, List.mem_cons]
      simpa using hb
  have hL := crc_slice ([36, 88, 60, 0, cmd % 256, cmd / 256,
      data.length % 256, data.length / 256] ++ data) 3 (8 + data.length)
      hbody (by simp; omega)
  have hR := crc_slice ([0, cmd % 256, cmd / 256, data.length % 256,
      data.length / 256] ++ data) 0 (5 + data.length) hfb (by simp; omega)
  have hslice :
      (([36, 88, 60, 0, cmd % 256, cmd / 256, data.length % 256,
          data.length / 256] ++ data).drop 3).take (8 + data.length - 3) =
        (([0, cmd % 256, cmd / 256, data.length % 256,
            data.length / 256] ++ data).drop 0).take (5 + data.length) := by
    simp only [List.cons_append, List.drop_succ_cons, List.drop_zero]
    have h3 : 8 + data.length - 3 = 5 + data.length := by omega
    rw [h3]
  simp only [Nat.sub_zero, List.drop_zero] at hR hslice
  unfold encodeV2
  simp only [map_mod_eq_self hdata, hcmod, hnmod]
  have hsz : 9 + data.length - 1 = 8 + data.length := by omega
  rw [hsz, hL, hslice, ← hR]

/-- Witness for C4: command 255 with payload `[1, 2]`. -/
theorem encodeV2_correct_witness :
    encodeV2 255 [1, 2] =
      [36, 88, 60, 0, 255, 0, 2, 0] ++ [1, 2] ++
        [crc8DvbS2Data ([0, 255, 0, 2, 0] ++ [1, 2]) 0 7] :=
  encodeV2_correct 255 [1, 2] (by decide) (by decide) (by decide) (by decide)


lemma set_append_length (pre : List Nat) (x y : Nat) (l : List Nat) :
    (pre ++ x :: l).set pre.length y = pre ++ y :: l := by
  rw [List.set_append]
  simp

lemma processResponse_cons (s : MspState) (c : Nat) (rest : List Nat) :
    processResponse s (c :: rest) =
      ((processResponse (processByte s c).1 rest).1,
       (processByte s c).2 ++ (processResponse (processByte s c).1 rest).2) := rfl

lemma processResponse_payload :
    ∀ (bs pre : List Nat) (exp chk : Nat) (cmd : Option Nat) (cnt : Int),
      bs ≠ [] →
      (∀ x ∈ bs, x < 256) →
      exp = pre.length + bs.length →
      processResponse
          { state := 5, messageBuffer := pre ++ List.replicate bs.length 0,
            messageChecksum := chk, messageLengthExpected := exp,
            messageLengthReceived := pre.length, command := cmd,
            commandCount := cnt } bs =
        ({ state := 6, messageBuffer := pre ++ bs,
           messageChecksum := bs.foldl (fun c b => c ^^^ b) chk,
           messageLengthExpected := exp,
           messageLengthReceived := pre.length + bs.length,
           command := cmd, commandCount := cnt }, []) := by
  intro bs
  induction bs with
  | nil => intro pre exp chk cmd cnt hne; exact absurd rfl hne
  | cons b t ih =>
      intro pre exp chk cmd cnt hne hlt hexp
      have hb : b % 256 = b := Nat.mod_eq_of_lt (hlt b (by simp))
      have hset : (pre ++ List.replicate (t.length + 1) 0).set pre.length b =
          pre ++ b :: List.replicate t.length 0 := by
        rw [List.replicate_succ, set_append_length]
      subst hexp
      cases t with
      | nil =>
          simp only [List.length_nil] at hset
          simp [processResponse, processByte, hb, hset,
            show pre.length + 1 ≥ pre.length + (0 + 1) by omega]
      | cons b2 t2 =>
          have hih := ih (pre ++ [b]) (pre.length + (t2.length + 1 + 1))
            (chk ^^^ b) cmd cnt (by simp)
            (fun x hx => hlt x (by simp [hx])) (by simp; omega)
          simp only [List.length_append, List.length_cons, List.length_nil,
            List.append_assoc, List.cons_append, List.nil_append,
            Nat.zero_add] at hih
          simp only [List.length_cons] at hset
          have hstep : processByte
              { state := 5,
                messageBuffer := pre ++ List.replicate (t2.length + 1 + 1) 0,
                messageChecksum := chk,
                messageLengthExpected := pre.length + (t2.length + 1 + 1),
                messageLengthReceived := pre.length, command := cmd,
                commandCount := cnt } b =
              ({ state := 5,
                 messageBuffer := pre ++ b :: List.replicate (t2.length + 1) 0,
                 messageChecksum := chk ^^^ b,
                 messageLengthExpected := pre.length + (t2.length + 1 + 1),
                 messageLengthReceived := pre.length + 1, command := cmd,
                 commandCount := cnt }, []) := by
            simp [processByte, hb, hset,
              show ¬ (pre.length + 1 ≥ pre.length + (t2.length + 1 + 1)) by omega]
          rw [processResponse_cons]
          simp only [List.length_cons]
          rw [hstep]
          simp [hih, List.foldl_cons, MspState.mk.injEq, Prod.mk.injEq]
          omega

/-- C1: V1 round trip.  For every command code 1..254 and payload of length
    0..255, encoding with `encodeV1`, swapping the direction byte from `<` to
    `>`, and feeding the bytes to a freshly reset parser emits exactly one
    frame carrying the original command and payload. -/
theorem v1_roundtrip :
    ∀ (cmd : Nat) (data : List Nat),
      1 ≤ cmd → cmd ≤ 254 → data.length ≤ 255 → (∀ b ∈ data, b < 256) →
      (processResponse initState ((encodeV1 cmd data).set 2 62)).2 =
        [{ commandName := cmd, data := data }] := by
  intro cmd data h1 h254 hlen hdata
  rw [encodeV1_eq cmd data (by omega) hlen hdata]
  cases data with
  | nil =>
      simp [processResponse, processByte, initState, Nat.zero_xor]
  | cons b t =>
      have hlt : ∀ x ∈ b :: t, x < 256 := hdata
      have hF : ((b :: t).length :: cmd :: b :: t).foldl (fun c b => c ^^^ b) 0
          = (b :: t).foldl (fun c b => c ^^^ b) ((t.length + 1) ^^^ cmd) := by
        simp [Nat.zero_xor]
      rw [hF]
      have hpre : ∀ rest : List Nat,
          processResponse initState
              (36 :: 77 :: 62 :: (t.length + 1) :: cmd :: rest) =
            processResponse
              { state := 5, messageBuffer := List.replicate (t.length + 1) 0,
                messageChecksum := (t.length + 1) ^^^ cmd,
                messageLengthExpected := t.length + 1,
                messageLengthReceived := 0, command := some cmd,
                commandCount := 0 } rest := by
        intro rest
        simp [processResponse_cons, processByte, initState]
      have hpay := processResponse_payload (b :: t) [] (t.length + 1)
        ((t.length + 1) ^^^ cmd) (some cmd) 0 (by simp) hlt (by simp)
      simp only [List.nil_append, List.length_nil, List.length_cons,
        Nat.zero_add] at hpay
      simp only [List.cons_append, List.nil_append, List.length_cons]
      rw [show (36 :: 77 :: 60 :: (t.length + 1) :: cmd :: b ::
          (t ++ [(b :: t).foldl (fun c b => c ^^^ b)
            ((t.length + 1) ^^^ cmd)])).set 2 62 =
          36 :: 77 :: 62 :: (t.length + 1) :: cmd :: b ::
          (t ++ [(b :: t).foldl (fun c b => c ^^^ b)
            ((t.length + 1) ^^^ cmd)]) from rfl]
      rw [hpre, ← List.cons_append, processResponse_append, hpay]
      simp [processResponse, processByte]

/-- Witness for C1: command 1 with payload `[5, 6]`. -/
theorem v1_roundtrip_witness :
    (processResponse initState ((encodeV1 1 [5, 6]).set 2 62)).2 =
      [{ commandName := 1, data := [5, 6] }] :=
  v1_roundtrip 1 [5, 6] (by decide) (by decide) (by decide) (by decide)

end Msp
